import Mathlib

/-!
Verification model of the java-to-php converter (src/main.rs).

The program is a CLI that either converts a single source file or walks a
source directory tree, spawning one concurrent conversion task per file whose
extension is "java", mirroring the directory structure under a destination
root.  Paths are modelled as lists of components; the filesystem, the token
counter and the HTTP translation endpoint are modelled as explicit functions
packaged in a `World`; the orchestration of `main` is modelled as a function
producing an event trace together with the process outcome.
-/

namespace JavaToPhp

/-- A filesystem path, as its list of components (`PathBuf`). -/
abbrev Path := List String

/-- Splits a file name into (stem, extension), following Rust
`Path::file_stem` / `Path::extension`: the extension is the portion after the
last `.`, and is `none` when there is no `.` or when the only `.` is the
leading character (dotfiles such as `.gitignore` have no extension). -/
def splitName (n : String) : String × Option String :=
  match (n.toList.enum.filter (fun ic => ic.2 == '.')).getLast? with
  | none => (n, none)
  | some (i, _) =>
    if i == 0 then (n, none)
    else (⟨n.toList.take i⟩, some ⟨n.toList.drop (i + 1)⟩)

/-- The extension of a file name (Rust `Path::extension` on the last
component). -/
def nameExtension (n : String) : Option String :=
  (splitName n).2

/-- Rust `PathBuf::set_extension e` on a bare file name (for nonempty `e`):
the stem followed by `.` and the new extension. -/
def setExtension (n e : String) : String :=
  (splitName n).1 ++ "." ++ e

/-- The extension of a path's file name. -/
def pathExtension (p : Path) : Option String :=
  match p.getLast? with
  | none => none
  | some n => nameExtension n

/-- Rust `PathBuf::set_extension` applied to a path: rewrites the last
component; a path without a file name is left unchanged. -/
def setExtPath : Path → String → Path
  | [], _ => []
  | [n], e => [setExtension n e]
  | n :: m :: rest, e => n :: setExtPath (m :: rest) e

/-- Rust `Path::display`, used in error messages. -/
def pathDisplay (p : Path) : String :=
  String.intercalate "/" p

/-- Whether a walk entry is a directory or a regular file. -/
inductive EntryKind where
  | dir
  | file
deriving DecidableEq, Repr

/-- One entry yielded by the directory walk (`ignore::DirEntry`). -/
structure WalkEntry where
  path : Path
  kind : EntryKind
deriving DecidableEq, Repr

/-- The `filter_entry` predicate of main.rs, line 132: keep an entry iff it is
a directory, or a file whose extension equals "java" (case-sensitively). -/
def includeEntry (p : Path) (k : EntryKind) : Bool :=
  k == .dir || (k == .file && pathExtension p == some "java")

/-- A source directory tree: the shape of the filesystem below the source
root, used to model the traversal performed by `ignore::WalkBuilder`. -/
inductive FsTree where
  | file (name : String)
  | dir (name : String) (children : List FsTree)
deriving Repr

mutual

/-- Entries yielded by the walk for the node `t` sitting in directory `base`.
`ign` models the ignore-rule/hidden-file pruning that `ignore::WalkBuilder`
performs before `filter_entry` is consulted; pruned subtrees are not entered
at all.  A directory entry is yielded before any entry beneath it. -/
def walkFrom (ign : Path → Bool) (base : Path) : FsTree → List WalkEntry
  | .file n =>
    let p := base ++ [n]
    if ign p then [] else if includeEntry p .file then [⟨p, .file⟩] else []
  | .dir n cs =>
    let p := base ++ [n]
    if ign p then []
    else if includeEntry p .dir then ⟨p, .dir⟩ :: walkChildren ign p cs else []

/-- Entries yielded for the children of the directory at path `p`. -/
def walkChildren (ign : Path → Bool) (p : Path) : List FsTree → List WalkEntry
  | [] => []
  | c :: cs => walkFrom ign p c ++ walkChildren ign p cs

end

/-- The full walk of tree mode: `WalkBuilder::new(&source)` on the directory
`source` with children `cs` yields the root itself first, then its
descendants. -/
def walkRoot (ign : Path → Bool) (source : Path) (cs : List FsTree) :
    List WalkEntry :=
  ⟨source, .dir⟩ :: walkChildren ign source cs

/-- The request body sent to the completion endpoint (struct `Request`;
the constant `temperature: 0.` is not modelled as nothing depends on it). -/
structure Request where
  model : String
  prompt : String
  maxTokens : Nat
deriving DecidableEq, Repr

/-- One candidate completion (struct `Choice`). -/
structure Choice where
  text : String
deriving DecidableEq, Repr

/-- The application-level error payload (struct `Error`). -/
structure ErrorMsg where
  message : String
deriving DecidableEq, Repr

/-- The decoded response of the completion endpoint (untagged enum
`Response`): either a list of candidate completions or an error object. -/
inductive Response where
  | ok (choices : List Choice)
  | err (error : ErrorMsg)
deriving DecidableEq, Repr

/-- A conversion task: one source file and its destination path. -/
structure ConversionTask where
  source : Path
  dest : Path
deriving DecidableEq, Repr

/-- Observable events of a run. -/
inductive Event where
  | readFile (p : Path)
  | write (p : Path) (content : String)
  | createDir (p : Path)
  | dirFound (p : Path)
  | spawn (t : ConversionTask)
  | printErr (msg : String)
deriving DecidableEq, Repr

/-- The ambient world a run executes against: the results of the filesystem
checks, of `fs::read_to_string`, of `get_completion_max_tokens`, of the HTTP
round-trip (request sent, decoded response or transport/decode error), of
`fs::create_dir`, of `fs::write` (`none` = success), and the stream the walk
yields (`Ok` entries interleaved with walk errors). -/
structure World where
  destIsDir : Bool
  sourceIsFile : Bool
  sourceIsDir : Bool
  destExists : Path → Bool
  createDirRes : Path → Option String
  writeRes : Path → String → Option String
  readFile : Path → Except String String
  maxTokens : String → Except String Nat
  send : Request → Except String Response
  walkResults : List (Except String WalkEntry)

/-- The model string hardcoded in `convert`. -/
def modelName : String := "text-davinci-003"

/-- The prompt built by `convert` from the file's content. -/
def promptOf (content : String) : String :=
  "#Java to PHP:\nJava:\n" ++ content ++ "\n\nPHP:"

/-- The `convert` function of main.rs, lines 56-95: read the source file,
build the prompt, compute the token budget, send the request, take the first
candidate of a success response, and write it to the destination; the write
itself is fallible (`fs::write(...)?`, line 92) and its failure fails the
conversion.  Returns the events performed (the read, and the write when one
completes) together with the function's `Result`. -/
def convert (w : World) (src dst : Path) : List Event × Except String Unit :=
  match w.readFile src with
  | .error e => ([.readFile src], .error e)
  | .ok content =>
    match w.maxTokens (promptOf content) with
    | .error e => ([.readFile src], .error e)
    | .ok mt =>
      match w.send ⟨modelName, promptOf content, mt⟩ with
      | .error e => ([.readFile src], .error e)
      | .ok (.err er) => ([.readFile src], .error er.message)
      | .ok (.ok []) => ([.readFile src], .error "No choice received")
      | .ok (.ok (c :: _)) =>
        match w.writeRes dst c.text with
        | some e => ([.readFile src], .error e)
        | none => ([.readFile src, .write dst c.text], .ok ())

/-- State threaded through tree mode's walk loop: the events performed so far
(directory handling and task spawning), and the destination directories this
run has created (so a later `exists()` check sees them). -/
structure TreeState where
  events : List Event
  created : List Path
deriving DecidableEq, Repr

/-- The tasks spawned in an event list, in spawn order (the `JoinSet`). -/
def spawnedTasks (evs : List Event) : List ConversionTask :=
  evs.filterMap (fun e => match e with | .spawn t => some t | _ => none)

/-- Lines 142-157 of main.rs, processing one `Ok` walk entry: strip the
source root off the entry's path (`strip_prefix`, whose failure is fatal via
`?`), re-root under the destination; a file entry gets `.php` substituted and
a conversion task spawned; a directory entry gets its mirror created unless
it already exists (a `create_dir` failure is fatal via `?`). -/
def stepEntry (w : World) (source destination : Path) (st : TreeState)
    (e : WalkEntry) : Except String TreeState :=
  if _h : source <+: e.path then
    let newPath := destination ++ e.path.drop source.length
    match e.kind with
    | .file =>
      let dst := setExtPath newPath "php"
      .ok { st with events := st.events ++ [.spawn ⟨e.path, dst⟩] }
    | .dir =>
      if w.destExists newPath || st.created.contains newPath then
        .ok { st with events := st.events ++ [.dirFound newPath] }
      else
        match w.createDirRes newPath with
        | some er => .error er
        | none =>
          .ok { events := st.events ++ [.createDir newPath],
                created := st.created ++ [newPath] }
  else .error "StripPrefixError"

/-- The walk loop of main.rs, lines 131-158: process the walk's results in
order; a walk error (`result?`) or a fatal step error aborts immediately,
returning the state reached so far together with the fatal error. -/
def runEntries (w : World) (source destination : Path) :
    TreeState → List (Except String WalkEntry) → TreeState × Option String
  | st, [] => (st, none)
  | st, .error e :: _ => (st, some e)
  | st, .ok en :: rs =>
    match stepEntry w source destination st en with
    | .error e => (st, some e)
    | .ok st2 => runEntries w source destination st2 rs

/-- One spawned task's body, lines 150-154: run `convert` and wrap a failure
with the destination path for context (`wrap_err_with`, printed as
"dest: cause"). -/
def taskRun (w : World) (t : ConversionTask) : List Event × Except String Unit :=
  match convert w t.source t.dest with
  | (ev, .ok ()) => (ev, .ok ())
  | (ev, .error e) => (ev, .error (pathDisplay t.dest ++ ": " ++ e))

/-- The drain loop of main.rs, lines 162-168: each failed outcome is printed
(`bar.println`); failures never abort the drain. -/
def drainEvents (rs : List (Except String Unit)) : List Event :=
  rs.filterMap (fun r => match r with
    | .error e => some (.printErr e)
    | .ok _ => none)

/-- The whole of `main` (lines 98-173): validate that the destination is a
directory; single-file mode when the source is a regular file (destination =
destination dir + file name with extension set to "php"); otherwise tree
mode: run the walk loop, then run every spawned task and drain the outcomes.
Task events are linearized after the loop's events; `main` returns `Ok(())`
after draining, so the drain outcome is always `.ok`.  A fatal loop error
drops the `JoinSet` (aborting the spawned tasks) and returns the error. -/
def mainModel (w : World) (source destination : Path) :
    List Event × Except String Unit :=
  if !w.destIsDir then
    ([], .error (pathDisplay destination ++ ": Not a directory"))
  else if w.sourceIsFile then
    match source.getLast? with
    | none => ([], .error "Invalid file name")
    | some n => convert w source (destination ++ [setExtension n "php"])
  else if !w.sourceIsDir then
    ([], .error (pathDisplay source ++ ": No such file or directory"))
  else
    match runEntries w source destination ⟨[], []⟩ w.walkResults with
    | (st, some e) => (st.events, .error e)
    | (st, none) =>
      let results := (spawnedTasks st.events).map (taskRun w)
      (st.events ++ results.flatMap Prod.fst
        ++ drainEvents (results.map Prod.snd), .ok ())

/-- How a successfully processed walk entry is reflected in the loop's event
list: a file entry becomes the spawn of its mapped task; a directory entry
has its mirrored directory created or found existing. -/
def entryEvent (source destination : Path) (en : WalkEntry) (ev : Event) :
    Prop :=
  match en.kind with
  | .file => ev = .spawn ⟨en.path,
      setExtPath (destination ++ en.path.drop source.length) "php"⟩
  | .dir => ev = .createDir (destination ++ en.path.drop source.length)
      ∨ ev = .dirFound (destination ++ en.path.drop source.length)

/-- An event the walk loop itself can emit (as opposed to task events). -/
def loopEvent : Event → Bool
  | .spawn _ => true
  | .createDir _ => true
  | .dirFound _ => true
  | _ => false

/-- A concrete world for tree mode in which the only spawned task fails:
the walk yields the source root and one java file, and reading the source
file fails. -/
def wFail : World where
  destIsDir := true
  sourceIsFile := false
  sourceIsDir := true
  destExists := fun p => p == ["d"]
  createDirRes := fun _ => none
  writeRes := fun _ _ => none
  readFile := fun _ => .error "read failed"
  maxTokens := fun _ => .ok 16
  send := fun _ => .ok (.ok [⟨"<?php"⟩])
  walkResults := [.ok ⟨["s"], .dir⟩, .ok ⟨["s", "A.java"], .file⟩]

/-- A concrete world for tree mode in which the walk yields an error after
having already yielded a java file. -/
def wWalkErr : World where
  destIsDir := true
  sourceIsFile := false
  sourceIsDir := true
  destExists := fun p => p == ["d"]
  createDirRes := fun _ => none
  writeRes := fun _ _ => none
  readFile := fun _ => .ok "class A"
  maxTokens := fun _ => .ok 16
  send := fun _ => .ok (.ok [⟨"<?php"⟩])
  walkResults := [.ok ⟨["s"], .dir⟩, .ok ⟨["s", "A.java"], .file⟩,
    .error "walk error"]

/-- A concrete world for single-file mode whose conversion succeeds. -/
def wSingle : World where
  destIsDir := true
  sourceIsFile := true
  sourceIsDir := false
  destExists := fun _ => false
  createDirRes := fun _ => none
  writeRes := fun _ _ => none
  readFile := fun _ => .ok "class Foo"
  maxTokens := fun _ => .ok 7
  send := fun _ => .ok (.ok [⟨"<?php Foo"⟩])
  walkResults := []

/-- `wSingle` with a destination that is not an existing directory. -/
def wNoDir : World where
  destIsDir := false
  sourceIsFile := true
  sourceIsDir := false
  destExists := fun _ => false
  createDirRes := fun _ => none
  writeRes := fun _ _ => none
  readFile := fun _ => .ok "class Foo"
  maxTokens := fun _ => .ok 7
  send := fun _ => .ok (.ok [⟨"<?php Foo"⟩])
  walkResults := []

/-- `wSingle` with an endpoint that returns zero candidates. -/
def wNoChoice : World where
  destIsDir := true
  sourceIsFile := true
  sourceIsDir := false
  destExists := fun _ => false
  createDirRes := fun _ => none
  writeRes := fun _ _ => none
  readFile := fun _ => .ok "class Foo"
  maxTokens := fun _ => .ok 7
  send := fun _ => .ok (.ok [])
  walkResults := []

/-- A concrete source tree: a subdirectory holding a java file and a
non-java file. -/
def csEx : List FsTree := [.dir "a" [.file "B.java", .file "C.txt"]]

/-- A concrete tree-mode world walking `csEx` with all operations
succeeding. -/
def wTree : World where
  destIsDir := true
  sourceIsFile := false
  sourceIsDir := true
  destExists := fun p => p == ["d"]
  createDirRes := fun _ => none
  writeRes := fun _ _ => none
  readFile := fun _ => .ok "class B"
  maxTokens := fun _ => .ok 9
  send := fun _ => .ok (.ok [⟨"<?php B"⟩])
  walkResults := (walkRoot (fun _ => false) ["s"] csEx).map Except.ok

/-- The loop state reached by `wTree`'s walk loop. -/
def stEx : TreeState where
  events := [Event.dirFound ["d"], Event.createDir ["d", "a"],
    Event.spawn ⟨["s", "a", "B.java"], ["d", "a", "B.php"]⟩]
  created := [["d", "a"]]

/-- A concrete source tree with three java files. -/
def csEx2 : List FsTree := [.file "A.java", .file "B.java", .file "C.java"]

/-- A concrete tree-mode world walking `csEx2` in which reading `B.java`
fails and everything else succeeds. -/
def wTree2 : World where
  destIsDir := true
  sourceIsFile := false
  sourceIsDir := true
  destExists := fun p => p == ["d"]
  createDirRes := fun _ => none
  writeRes := fun _ _ => none
  readFile := fun p =>
    if p == ["s", "B.java"] then .error "boom" else .ok "class X"
  maxTokens := fun _ => .ok 9
  send := fun _ => .ok (.ok [⟨"<?php X"⟩])
  walkResults := (walkRoot (fun _ => false) ["s"] csEx2).map Except.ok

/-- The loop state reached by `wTree2`'s walk loop. -/
def stEx2 : TreeState where
  events := [Event.dirFound ["d"],
    Event.spawn ⟨["s", "A.java"], ["d", "A.php"]⟩,
    Event.spawn ⟨["s", "B.java"], ["d", "B.php"]⟩,
    Event.spawn ⟨["s", "C.java"], ["d", "C.php"]⟩]
  created := []

/-! ### Helper lemmas -/

theorem mem_spawnedTasks {evs : List Event} {t : ConversionTask} :
    t ∈ spawnedTasks evs ↔ Event.spawn t ∈ evs := by
  unfold spawnedTasks
  rw [ List.mem_filterMap]
  constructor
  · rintro ⟨e, he, hm⟩
    cases e <;> simp_all
  · intro h
    exact ⟨Event.spawn t, h, rfl⟩

theorem convert_ok_shape {w : World} {src dst : Path} {ev : List Event}
    (h : convert w src dst = (ev, Except.ok ())) :
    ∃ text, ev = [Event.readFile src, Event.write dst text] := by
  unfold convert at h
  repeat' split at h
  all_goals simp only [Prod.mk.injEq] at h
  all_goals first
    | exact Except.noConfusion h.2
    | exact ⟨_, h.1.symm⟩

theorem convert_read_head (w : World) (src dst : Path) :
    ∃ rest, (convert w src dst).fst = Event.readFile src :: rest := by
  unfold convert
  repeat' split
  all_goals exact ⟨_, rfl⟩

theorem convert_events_cases {w : World} {src dst : Path} {x : Event}
    (hx : x ∈ (convert w src dst).fst) :
    x = Event.readFile src ∨ ∃ c, x = Event.write dst c := by
  unfold convert at hx
  repeat' split at hx
  all_goals simp only [List.mem_cons, List.mem_singleton,
    List.not_mem_nil, or_false] at hx
  all_goals tauto

theorem taskRun_fst (w : World) (t : ConversionTask) :
    (taskRun w t).fst = (convert w t.source t.dest).fst := by
  unfold taskRun
  rcases h : convert w t.source t.dest with ⟨ev, r⟩
  rcases r with e | u
  · rfl
  · rcases u with ⟨⟩
    rfl

theorem entryEvent_loopEvent {source destination : Path} {en : WalkEntry}
    {ev : Event} (h : entryEvent source destination en ev) :
    loopEvent ev = true := by
  unfold entryEvent at h
  rcases hk : en.kind with _ | _ <;> rw [hk] at h
  · rcases h with h | h <;> subst h <;> rfl
  · subst h
    rfl

theorem stepEntry_ok {w : World} {source destination : Path}
    {st st2 : TreeState} {e : WalkEntry}
    (h : stepEntry w source destination st e = .ok st2) :
    source <+: e.path ∧
      ∃ ev, st2.events = st.events ++ [ev] ∧
        entryEvent source destination e ev := by
  unfold stepEntry at h
  split at h
  case isTrue hp =>
    refine ⟨hp, ?_⟩
    split at h
    · exact ⟨_, by cases h; rfl, by unfold entryEvent; rw [(by assumption : e.kind = .file)]⟩
    · dsimp only at h
      split at h
      · exact ⟨_, by cases h; rfl,
          by unfold entryEvent; rw [(by assumption : e.kind = .dir)]; right; rfl⟩
      · split at h
        · exact Except.noConfusion h
        · exact ⟨_, by cases h; rfl,
            by unfold entryEvent; rw [(by assumption : e.kind = .dir)]; left; rfl⟩
  case isFalse => exact Except.noConfusion h

/-- Splitting a run of the walk loop at an append of its input stream. -/
theorem runEntries_append (w : World) (source destination : Path) :
    ∀ (l1 l2 : List (Except String WalkEntry)) (st0 : TreeState),
    runEntries w source destination st0 (l1 ++ l2) =
      match runEntries w source destination st0 l1 with
      | (st, none) => runEntries w source destination st l2
      | (st, some e) => (st, some e)
  | [], l2, st0 => by simp [runEntries]
  | .error e :: l1, l2, st0 => by simp [runEntries]
  | .ok en :: l1, l2, st0 => by
    simp only [List.cons_append, runEntries]
    rcases h : stepEntry w source destination st0 en with e | st1
    · rfl
    · exact runEntries_append w source destination l1 l2 st1

/-- A completed error-free run of the walk loop turns the i-th walk entry
into the i-th appended event, matching per `entryEvent`. -/
theorem runEntries_ok (w : World) (source destination : Path) :
    ∀ (entries : List WalkEntry) (st0 st : TreeState),
    runEntries w source destination st0 (entries.map Except.ok) = (st, none) →
    st.events.length = st0.events.length + entries.length ∧
    (∀ i, i < st0.events.length → st.events[i]? = st0.events[i]?) ∧
    (∀ i en, entries[i]? = some en →
      ∃ ev, st.events[st0.events.length + i]? = some ev ∧
        entryEvent source destination en ev) := by
  intro entries
  induction entries with
  | nil =>
    intro st0 st h
    simp only [List.map_nil, runEntries, Prod.mk.injEq] at h
    rw [← h.1]
    exact ⟨rfl, fun i _ => rfl, fun i en hen => by simp at hen⟩
  | cons en rest ih =>
    intro st0 st h
    simp only [List.map_cons, runEntries] at h
    rcases hs : stepEntry w source destination st0 en with e | st1 <;>
      rw [hs] at h
    · exact absurd (congrArg Prod.snd h) (by simp)
    · obtain ⟨hlen, hpres, hidx⟩ := ih st1 st h
      obtain ⟨-, ev0, hev0, hm0⟩ := stepEntry_ok hs
      have hlen1 : st1.events.length = st0.events.length + 1 := by
        rw [hev0]; simp
      refine ⟨by simp only [List.length_cons]; omega, ?_, ?_⟩
      · intro i hi
        rw [hpres i (by omega), hev0]
        exact List.getElem?_append_left hi
      · intro i en2 hen2
        rcases i with _ | j
        · simp only [List.getElem?_cons_zero, Option.some.injEq] at hen2
          subst hen2
          refine ⟨ev0, ?_, hm0⟩
          rw [Nat.add_zero, hpres st0.events.length (by omega), hev0]
          exact List.getElem?_concat_length st0.events ev0
        · simp only [List.getElem?_cons_succ] at hen2
          obtain ⟨ev, hev, hm⟩ := hidx j en2 hen2
          refine ⟨ev, ?_, hm⟩
          rw [← hev, hlen1]
          congr 1
          omega

/-- The walk loop only emits loop events (spawns and directory handling). -/
theorem runEntries_loopEvents (w : World) (source destination : Path) :
    ∀ (rs : List (Except String WalkEntry)) (st0 st : TreeState)
      (er : Option String),
    runEntries w source destination st0 rs = (st, er) →
    (∀ x ∈ st0.events, loopEvent x = true) →
    ∀ x ∈ st.events, loopEvent x = true := by
  intro rs
  induction rs with
  | nil =>
    intro st0 st er h h0
    cases h
    exact h0
  | cons r rest ih =>
    intro st0 st er h h0
    rcases r with e | en
    · cases h
      exact h0
    · simp only [runEntries] at h
      rcases hs : stepEntry w source destination st0 en with e | st1 <;>
        rw [hs] at h
      · cases h
        exact h0
      · refine ih st1 st er h ?_
        obtain ⟨-, ev0, hev0, hm0⟩ := stepEntry_ok hs
        intro x hx
        rw [hev0, List.mem_append] at hx
        rcases hx with hx | hx
        · exact h0 x hx
        · rw [ List.mem_singleton] at hx
          subst hx
          exact entryEvent_loopEvent hm0

/-- Reduction of `mainModel` in tree mode when the walk loop completes. -/
theorem mainModel_tree {w : World} {source destination : Path} {st : TreeState}
    (hd : w.destIsDir = true) (hf : w.sourceIsFile = false)
    (hs : w.sourceIsDir = true)
    (hrun : runEntries w source destination ⟨[], []⟩ w.walkResults =
      (st, none)) :
    mainModel w source destination =
      (st.events
        ++ ((spawnedTasks st.events).map (taskRun w)).flatMap Prod.fst
        ++ drainEvents (((spawnedTasks st.events).map (taskRun w)).map
              Prod.snd),
       Except.ok ()) := by
  unfold mainModel
  rw [hd, hf, hs, hrun]
  rfl

/-- Reduction of `mainModel` in tree mode when the walk loop aborts. -/
theorem mainModel_fatal {w : World} {source destination : Path}
    {st : TreeState} {e : String}
    (hd : w.destIsDir = true) (hf : w.sourceIsFile = false)
    (hs : w.sourceIsDir = true)
    (hrun : runEntries w source destination ⟨[], []⟩ w.walkResults =
      (st, some e)) :
    mainModel w source destination = (st.events, Except.error e) := by
  unfold mainModel
  rw [hd, hf, hs, hrun]
  rfl

mutual

/-- Every entry the walk yields below node `t` in `base` lies strictly below
`base`, and yielded files passed the extension filter. -/
theorem walkFrom_sound (ign : Path → Bool) (base : Path) (t : FsTree)
    (e : WalkEntry) (he : e ∈ walkFrom ign base t) :
    (∃ s, s ≠ [] ∧ e.path = base ++ s) ∧
      (e.kind = .file → pathExtension e.path = some "java") := by
  cases t with
  | file n =>
    unfold walkFrom at he
    dsimp only at he
    split at he
    · simp at he
    · split at he
      · rw [ List.mem_singleton] at he
        subst he
        refine ⟨⟨[n], by simp, rfl⟩, fun _ => ?_⟩
        have hinc : includeEntry (base ++ [n]) .file = true := by assumption
        unfold includeEntry at hinc
        simpa using hinc
      · simp at he
  | dir n cs =>
    unfold walkFrom at he
    dsimp only at he
    split at he
    · simp at he
    · split at he
      · rw [ List.mem_cons] at he
        rcases he with he | he
        · subst he
          exact ⟨⟨[n], by simp, rfl⟩, fun h => by cases h⟩
        · obtain ⟨⟨s, hs, hp⟩, hext⟩ :=
            walkChildren_sound ign (base ++ [n]) cs e he
          exact ⟨⟨[n] ++ s, by simp,
            by rw [hp, List.append_assoc]⟩, hext⟩
      · simp at he

/-- The entries yielded for the children of directory `p` lie strictly below
`p`, and yielded files passed the extension filter. -/
theorem walkChildren_sound (ign : Path → Bool) (p : Path) (cs : List FsTree)
    (e : WalkEntry) (he : e ∈ walkChildren ign p cs) :
    (∃ s, s ≠ [] ∧ e.path = p ++ s) ∧
      (e.kind = .file → pathExtension e.path = some "java") := by
  cases cs with
  | nil => simp [walkChildren] at he
  | cons c cs2 =>
    unfold walkChildren at he
    rw [ List.mem_append] at he
    rcases he with he | he
    · exact walkFrom_sound ign p c e he
    · exact walkChildren_sound ign p cs2 e he

end

/-- Every entry of the full walk lies under the source root, and yielded
files passed the extension filter. -/
theorem walkRoot_sound (ign : Path → Bool) (source : Path) (cs : List FsTree)
    (e : WalkEntry) (he : e ∈ walkRoot ign source cs) :
    source <+: e.path ∧
      (e.kind = .file → pathExtension e.path = some "java") := by
  unfold walkRoot at he
  rw [ List.mem_cons] at he
  rcases he with he | he
  · subst he
    exact ⟨ List.prefix_refl source, fun h => by cases h⟩
  · obtain ⟨⟨s, -, hp⟩, hext⟩ := walkChildren_sound ign source cs e he
    exact ⟨hp ▸ List.prefix_append source s, hext⟩

theorem includeEntry_dir (p : Path) : includeEntry p .dir = true := rfl

/-- A path strictly between a directory and one of its immediate children is
the child itself. -/
theorem eq_of_between {base q : Path} {n : String}
    (hq1 : base <+: q) (hq2 : q <+: base ++ [n]) (hb : q ≠ base) :
    q = base ++ [n] := by
  have h1 := hq1.length_le
  have h2 := hq2.length_le
  have h3 : (base ++ [n]).length = base.length + 1 := by simp
  rcases Nat.lt_or_ge base.length q.length with hlt | hge
  · exact hq2.eq_of_length (by omega)
  · exact absurd (hq1.eq_of_length (by omega)).symm hb

theorem walkFrom_dir_skip (ign : Path → Bool) (base : Path) (nm : String)
    (cs : List FsTree) (hig : ign (base ++ [nm]) = true) :
    walkFrom ign base (.dir nm cs) = [] := by
  unfold walkFrom
  dsimp only
  rw [hig]
  simp

theorem walkFrom_dir_eq (ign : Path → Bool) (base : Path) (nm : String)
    (cs : List FsTree) (hig : ign (base ++ [nm]) = false) :
    walkFrom ign base (.dir nm cs) =
      ⟨base ++ [nm], .dir⟩ :: walkChildren ign (base ++ [nm]) cs := by
  unfold walkFrom
  dsimp only
  rw [hig]
  simp [includeEntry_dir]

mutual

/-- In the entry list below node `t`, every strict ancestor directory `q` of
an entry is itself yielded, as a directory entry, strictly earlier. -/
theorem walkFrom_anc (ign : Path → Bool) (base : Path) (t : FsTree)
    (n : Nat) (e : WalkEntry) (hn : (walkFrom ign base t)[n]? = some e)
    (q : Path) (hq1 : base <+: q) (hq2 : q <+: e.path) (hb : q ≠ base)
    (hqe : q ≠ e.path) :
    ∃ m, m < n ∧ (walkFrom ign base t)[m]? = some ⟨q, .dir⟩ := by
  cases t with
  | file nm =>
    exfalso
    unfold walkFrom at hn
    dsimp only at hn
    split at hn
    · simp at hn
    · split at hn
      · have he : e = ⟨base ++ [nm], .file⟩ := by
          rcases n with _ | n2
          · simpa using hn.symm
          · simp at hn
        subst he
        exact hqe (eq_of_between hq1 hq2 hb)
      · simp at hn
  | dir nm cs =>
    cases hig : ign (base ++ [nm]) with
    | true =>
      rw [walkFrom_dir_skip ign base nm cs hig] at hn
      simp at hn
    | false =>
      rw [walkFrom_dir_eq ign base nm cs hig] at hn ⊢
      rcases n with _ | m
      · exfalso
        simp only [List.getElem?_cons_zero, Option.some.injEq] at hn
        rw [← hn] at hq2 hqe
        exact hqe (eq_of_between hq1 hq2 hb)
      · simp only [List.getElem?_cons_succ] at hn
        by_cases hqp : q = base ++ [nm]
        · subst hqp
          exact ⟨0, Nat.succ_pos m, List.getElem?_cons_zero⟩
        · have he : e ∈ walkChildren ign (base ++ [nm]) cs :=
            List.getElem?_mem hn
          obtain ⟨⟨s, -, hp⟩, -⟩ :=
            walkChildren_sound ign (base ++ [nm]) cs e he
          have hpe : (base ++ [nm]) <+: e.path :=
            hp ▸ List.prefix_append _ s
          rcases List.prefix_or_prefix_of_prefix hq2 hpe with hcase | hcase
          · exact absurd (eq_of_between hq1 hcase hb) hqp
          · obtain ⟨m2, hm2, hg⟩ := walkChildren_anc ign (base ++ [nm]) cs
              m e hn q hcase hq2 hqp hqe
            exact ⟨m2 + 1, by omega, by simpa using hg⟩

/-- Same statement for the entries yielded for the children of `p`. -/
theorem walkChildren_anc (ign : Path → Bool) (p : Path) (cs : List FsTree)
    (n : Nat) (e : WalkEntry) (hn : (walkChildren ign p cs)[n]? = some e)
    (q : Path) (hq1 : p <+: q) (hq2 : q <+: e.path) (hb : q ≠ p)
    (hqe : q ≠ e.path) :
    ∃ m, m < n ∧ (walkChildren ign p cs)[m]? = some ⟨q, .dir⟩ := by
  cases cs with
  | nil => simp [walkChildren] at hn
  | cons c cs2 =>
    unfold walkChildren at hn ⊢
    rcases Nat.lt_or_ge n (walkFrom ign p c).length with hlt | hge
    · rw [ List.getElem?_append_left hlt] at hn
      obtain ⟨m, hm, hg⟩ := walkFrom_anc ign p c n e hn q hq1 hq2 hb hqe
      exact ⟨m, hm, by rw [ List.getElem?_append_left (by omega)]; exact hg⟩
    · rw [ List.getElem?_append_right hge] at hn
      obtain ⟨m, hm, hg⟩ := walkChildren_anc ign p cs2
        (n - (walkFrom ign p c).length) e hn q hq1 hq2 hb hqe
      refine ⟨(walkFrom ign p c).length + m, by omega, ?_⟩
      rw [ List.getElem?_append_right (by omega), Nat.add_sub_cancel_left]
      exact hg

end

/-- In the full walk, every strict ancestor directory of an entry (the source
root included) is yielded as a directory entry strictly earlier. -/
theorem walkRoot_anc (ign : Path → Bool) (source : Path) (cs : List FsTree)
    (n : Nat) (e : WalkEntry) (hn : (walkRoot ign source cs)[n]? = some e)
    (q : Path) (hq1 : source <+: q) (hq2 : q <+: e.path) (hqe : q ≠ e.path) :
    ∃ m, m < n ∧ (walkRoot ign source cs)[m]? = some ⟨q, .dir⟩ := by
  unfold walkRoot at hn ⊢
  rcases n with _ | m
  · exfalso
    simp only [List.getElem?_cons_zero, Option.some.injEq] at hn
    rw [← hn] at hq2 hqe
    exact hqe ((hq1.eq_of_length
      (Nat.le_antisymm hq1.length_le hq2.length_le)).symm)
  · simp only [List.getElem?_cons_succ] at hn
    by_cases hqs : q = source
    · subst hqs
      exact ⟨0, Nat.succ_pos m, List.getElem?_cons_zero⟩
    · obtain ⟨m2, hm2, hg⟩ :=
        walkChildren_anc ign source cs m e hn q hq1 hq2 hqs hqe
      exact ⟨m2 + 1, by omega, by simpa using hg⟩

/-- `runEntries_ok` specialized to the loop's initial state. -/
theorem runEntries_ok_init (w : World) (source destination : Path)
    (entries : List WalkEntry) (st : TreeState)
    (h : runEntries w source destination ⟨[], []⟩ (entries.map Except.ok) =
      (st, none)) :
    st.events.length = entries.length ∧
    ∀ (i : Nat) (en : WalkEntry), entries[i]? = some en →
      ∃ ev, st.events[i]? = some ev ∧
        entryEvent source destination en ev := by
  obtain ⟨hlen, -, hidx⟩ := runEntries_ok w source destination entries
    ⟨[], []⟩ st h
  refine ⟨by simpa using hlen, ?_⟩
  intro i en hen
  simpa using hidx i en hen

/-- Every task spawned by an error-free tree-mode walk loop stems from a
yielded java file under the source root and carries the mirrored `.php`
destination. -/
theorem spawned_from_walk (w : World) (source destination : Path)
    (ign : Path → Bool) (cs : List FsTree) (st : TreeState)
    (hwalk : w.walkResults = (walkRoot ign source cs).map Except.ok)
    (hrun : runEntries w source destination ⟨[], []⟩ w.walkResults =
      (st, none))
    (t : ConversionTask) (ht : t ∈ spawnedTasks st.events) :
    source <+: t.source ∧ pathExtension t.source = some "java" ∧
      t.dest = setExtPath (destination ++ t.source.drop source.length)
        "php" := by
  rw [hwalk] at hrun
  obtain ⟨hlen, hidx⟩ := runEntries_ok_init w source destination _ st hrun
  have hsp : Event.spawn t ∈ st.events := mem_spawnedTasks.mp ht
  obtain ⟨i, hi⟩ := List.mem_iff_getElem?.mp hsp
  obtain ⟨hilt, -⟩ := List.getElem?_eq_some_iff.mp hi
  have hent : i < (walkRoot ign source cs).length := by omega
  rcases hW : (walkRoot ign source cs)[i] with ⟨enp, enk⟩
  have henq : (walkRoot ign source cs)[i]? = some ⟨enp, enk⟩ := by
    rw [ List.getElem?_eq_getElem hent, hW]
  obtain ⟨ev, hev, hm⟩ := hidx i ⟨enp, enk⟩ henq
  rw [hi] at hev
  have hevt : ev = Event.spawn t := (Option.some.inj hev).symm
  subst hevt
  have hmem : (⟨enp, enk⟩ : WalkEntry) ∈ walkRoot ign source cs := by
    rw [← hW]
    exact List.getElem_mem hent
  obtain ⟨hpre, hext⟩ := walkRoot_sound ign source cs ⟨enp, enk⟩ hmem
  cases enk with
  | dir =>
    unfold entryEvent at hm
    rcases hm with hm | hm <;> exact Event.noConfusion hm
  | file =>
    unfold entryEvent at hm
    dsimp only at hm
    have hts : t = ⟨enp,
        setExtPath (destination ++ enp.drop source.length) "php"⟩ := by
      injection hm
    subst hts
    exact ⟨hpre, hext rfl, rfl⟩

/-! ### Claims -/

/-- C6: if the remote response parses as a success whose candidate list is
empty, `convert` fails with the no-result message "No choice received" and
performs no write to the destination (its trace is just the read). -/
theorem c6_empty_candidates (w : World) (src dst : Path) (content : String)
    (mt : Nat)
    (hread : w.readFile src = .ok content)
    (hmt : w.maxTokens (promptOf content) = .ok mt)
    (hsend : w.send ⟨modelName, promptOf content, mt⟩ = .ok (.ok [])) :
    convert w src dst =
      ([Event.readFile src], .error "No choice received") ∧
    ∀ p c, Event.write p c ∉ (convert w src dst).fst := by
  have h : convert w src dst =
      ([Event.readFile src], .error "No choice received") := by
    unfold convert
    simp only [hread, hmt, hsend]
  exact ⟨h, by rw [h]; simp⟩

/-- C6 witness: a concrete world whose endpoint returns zero candidates. -/
theorem c6_witness :
    convert wNoChoice ["s", "A.java"] ["d", "A.php"] =
      ([Event.readFile ["s", "A.java"]], .error "No choice received") :=
  (c6_empty_candidates wNoChoice ["s", "A.java"] ["d", "A.php"]
    "class Foo" 7 rfl rfl rfl).1

/-- C7: when the destination is not an existing directory, the run fails
with the "Not a directory" error and its trace is empty: no source file is
read and nothing is written. -/
theorem c7_dest_validation (w : World) (source destination : Path)
    (hd : w.destIsDir = false) :
    mainModel w source destination =
      ([], .error (pathDisplay destination ++ ": Not a directory")) := by
  unfold mainModel
  rw [hd]
  rfl

/-- C7 witness. -/
theorem c7_witness :
    mainModel wNoDir ["s", "A.java"] ["nodir"] =
      ([], .error (pathDisplay ["nodir"] ++ ": Not a directory")) :=
  c7_dest_validation wNoDir ["s", "A.java"] ["nodir"] rfl

/-- C8: single-file mode performs one synchronous conversion whose
destination is the destination directory joined with the source's file name
with its extension set to "php"; when the read, the remote call and the
write to that destination all succeed, the trace is exactly the read of the
source and the write of the first candidate's text to that path, and no
task is ever spawned (concurrent mode is never entered). -/
theorem c8_single_file (w : World) (source destination : Path)
    (n content : String) (mt : Nat) (c : Choice) (rest : List Choice)
    (hd : w.destIsDir = true) (hf : w.sourceIsFile = true)
    (hn : source.getLast? = some n)
    (hread : w.readFile source = .ok content)
    (hmt : w.maxTokens (promptOf content) = .ok mt)
    (hsend : w.send ⟨modelName, promptOf content, mt⟩ =
      .ok (.ok (c :: rest)))
    (hwrite : w.writeRes (destination ++ [setExtension n "php"]) c.text =
      none) :
    mainModel w source destination =
      ([Event.readFile source,
        Event.write (destination ++ [setExtension n "php"]) c.text],
       Except.ok ()) ∧
    ∀ t, Event.spawn t ∉ (mainModel w source destination).fst := by
  have h : mainModel w source destination =
      ([Event.readFile source,
        Event.write (destination ++ [setExtension n "php"]) c.text],
       Except.ok ()) := by
    unfold mainModel
    rw [hd, hf, hn]
    show convert w source (destination ++ [setExtension n "php"]) = _
    unfold convert
    simp only [hread, hmt, hsend, hwrite]
  exact ⟨h, by rw [h]; simp⟩

/-- C8 witness: `Foo.java` with destination `out` yields `out/Foo.php`
holding the candidate's text. -/
theorem c8_witness :
    mainModel wSingle ["Foo.java"] ["out"] =
      ([Event.readFile ["Foo.java"],
        Event.write (["out"] ++ [setExtension "Foo.java" "php"]) "<?php Foo"],
       Except.ok ()) :=
  (c8_single_file wSingle ["Foo.java"] ["out"] "Foo.java" "class Foo" 7
    ⟨"<?php Foo"⟩ [] rfl rfl rfl rfl rfl rfl rfl).1

/-- C10: single-file mode applies no extension filter: for any regular
source file, whatever its file name, the whole run is exactly the one
conversion targeting destination/<file name with extension set to "php">,
and it begins by reading that source file. -/
theorem c10_single_no_filter (w : World) (source destination : Path)
    (n : String) (hd : w.destIsDir = true) (hf : w.sourceIsFile = true)
    (hn : source.getLast? = some n) :
    mainModel w source destination =
      convert w source (destination ++ [setExtension n "php"]) ∧
    ∃ rest, (mainModel w source destination).fst =
      Event.readFile source :: rest := by
  have h : mainModel w source destination =
      convert w source (destination ++ [setExtension n "php"]) := by
    unfold mainModel
    rw [hd, hf, hn]
    rfl
  refine ⟨h, ?_⟩
  rw [h]
  exact convert_read_head w source _

/-- C10 witness: a `.txt` file and an extensionless file are both attempted,
mapped to `Foo.php` and `README.php`. -/
theorem c10_witness :
    (mainModel wSingle ["Foo.txt"] ["out"] =
      convert wSingle ["Foo.txt"] ["out", "Foo.php"]) ∧
    (mainModel wSingle ["README"] ["out"] =
      convert wSingle ["README"] ["out", "README.php"]) :=
  ⟨(c10_single_no_filter wSingle ["Foo.txt"] ["out"] "Foo.txt"
      rfl rfl rfl).1,
   (c10_single_no_filter wSingle ["README"] ["out"] "README"
      rfl rfl rfl).1⟩

/-- C5 counterexample: a tree-mode run in which the only conversion task
fails (it is printed as a failure), yet the process outcome is `Ok` — the
exit status is zero although a task failed, so the claim that the aggregate
exit status is non-zero when a task fails is false on the code. -/
theorem c5_counterexample :
    (mainModel wFail ["s"] ["d"]).snd = Except.ok () ∧
    Event.printErr "d/A.php: read failed" ∈ (mainModel wFail ["s"] ["d"]).fst
    := ⟨rfl, by decide⟩

/-- C5 (amended): after every task outcome has been drained, the process
outcome is `Ok` regardless of how many tasks failed; task failures are only
printed and never affect the exit status. -/
theorem c5_exit_ignores_task_failures (w : World) (source destination : Path)
    (st : TreeState)
    (hd : w.destIsDir = true) (hf : w.sourceIsFile = false)
    (hs : w.sourceIsDir = true)
    (hrun : runEntries w source destination ⟨[], []⟩ w.walkResults =
      (st, none)) :
    (mainModel w source destination).snd = Except.ok () := by
  rw [mainModel_tree hd hf hs hrun]

/-- C5 witness: the amended theorem applied to the failing concrete run. -/
theorem c5_witness : (mainModel wFail ["s"] ["d"]).snd = Except.ok () :=
  c5_exit_ignores_task_failures wFail ["s"] ["d"]
    ⟨[Event.dirFound ["d"],
      Event.spawn ⟨["s", "A.java"], ["d", "A.php"]⟩], []⟩
    rfl rfl rfl (by decide)

/-- C9 counterexample: a walk error yielded after a java file aborts the run
with that error, but at that point a conversion task had already been
spawned — the claim that the abort happens before any task is spawned is
false on the code. -/
theorem c9_counterexample :
    (mainModel wWalkErr ["s"] ["d"]).snd = Except.error "walk error" ∧
    Event.spawn ⟨["s", "A.java"], ["d", "A.php"]⟩ ∈
      (mainModel wWalkErr ["s"] ["d"]).fst := ⟨rfl, by decide⟩

/-- C9 (amended): every walk error is fatal: the run aborts with that error
as soon as it is yielded — no later walk entry is processed and no outcome
is drained — but tasks spawned for files yielded earlier in the walk have
already been spawned; the final trace is exactly the loop events of the
entries before the error. -/
theorem c9_walk_error_aborts (w : World) (source destination : Path)
    (l1 l2 : List (Except String WalkEntry)) (e : String) (st : TreeState)
    (hd : w.destIsDir = true) (hf : w.sourceIsFile = false)
    (hs : w.sourceIsDir = true)
    (hwalk : w.walkResults = l1 ++ .error e :: l2)
    (hrun : runEntries w source destination ⟨[], []⟩ l1 = (st, none)) :
    mainModel w source destination = (st.events, Except.error e) := by
  have hfull : runEntries w source destination ⟨[], []⟩ w.walkResults =
      (st, some e) := by
    rw [hwalk,
      runEntries_append w source destination l1 (.error e :: l2) ⟨[], []⟩,
      hrun]
    rfl
  exact mainModel_fatal hd hf hs hfull

/-- C9 witness: the amended theorem applied to the concrete aborted run. -/
theorem c9_witness :
    mainModel wWalkErr ["s"] ["d"] =
      ([Event.dirFound ["d"],
        Event.spawn ⟨["s", "A.java"], ["d", "A.php"]⟩],
       Except.error "walk error") :=
  c9_walk_error_aborts wWalkErr ["s"] ["d"]
    [.ok ⟨["s"], .dir⟩, .ok ⟨["s", "A.java"], .file⟩] [] "walk error"
    ⟨[Event.dirFound ["d"],
      Event.spawn ⟨["s", "A.java"], ["d", "A.php"]⟩], []⟩
    rfl rfl rfl rfl (by decide)

/-- C1: in tree mode, every java file the walk yields is spawned as a task
whose destination is the file's path relative to the source root, re-rooted
under the destination root, with the extension replaced by "php"; when the
conversion succeeds, the translated text is written exactly there. -/
theorem c1_tree_mapping (w : World) (source destination : Path)
    (ign : Path → Bool) (cs : List FsTree) (st : TreeState) (i : Nat)
    (p : Path)
    (hd : w.destIsDir = true) (hf : w.sourceIsFile = false)
    (hs : w.sourceIsDir = true)
    (hwalk : w.walkResults = (walkRoot ign source cs).map Except.ok)
    (hrun : runEntries w source destination ⟨[], []⟩ w.walkResults =
      (st, none))
    (hi : (walkRoot ign source cs)[i]? = some ⟨p, .file⟩) :
    ∃ t, t ∈ spawnedTasks st.events ∧ t.source = p ∧
      source <+: p ∧ pathExtension p = some "java" ∧
      t.dest = setExtPath (destination ++ p.drop source.length) "php" ∧
      ∀ ev, convert w p t.dest = (ev, Except.ok ()) →
        ∃ text, ev = [Event.readFile p, Event.write t.dest text] ∧
          Event.write t.dest text ∈ (mainModel w source destination).fst := by
  have hrun0 := hrun
  rw [hwalk] at hrun
  obtain ⟨hlen, hidx⟩ := runEntries_ok_init w source destination _ st hrun
  obtain ⟨ev, hev, hm⟩ := hidx i ⟨p, .file⟩ hi
  unfold entryEvent at hm
  dsimp only at hm
  subst hm
  have hmemt : (⟨p, setExtPath (destination ++ p.drop source.length) "php"⟩ :
      ConversionTask) ∈ spawnedTasks st.events :=
    mem_spawnedTasks.mpr (List.getElem?_mem hev)
  refine ⟨⟨p, setExtPath (destination ++ p.drop source.length) "php"⟩,
    hmemt, rfl, ?_, ?_, rfl, ?_⟩
  · exact (walkRoot_sound ign source cs ⟨p, .file⟩ (List.getElem?_mem hi)).1
  · exact (walkRoot_sound ign source cs ⟨p, .file⟩
      (List.getElem?_mem hi)).2 rfl
  · intro ev2 hconv
    obtain ⟨text, htext⟩ := convert_ok_shape hconv
    refine ⟨text, htext, ?_⟩
    rw [mainModel_tree hd hf hs hrun0]
    dsimp only
    rw [ List.mem_append]
    left
    rw [ List.mem_append]
    right
    rw [ List.mem_flatMap]
    refine ⟨taskRun w
      ⟨p, setExtPath (destination ++ p.drop source.length) "php"⟩,
      List.mem_map_of_mem _ hmemt, ?_⟩
    have hfst : (taskRun w ⟨p,
        setExtPath (destination ++ p.drop source.length) "php"⟩).fst = ev2 :=
      (taskRun_fst w _).trans (congrArg Prod.fst hconv)
    rw [hfst, htext]
    simp

/-- C1 witness: `B.java` in subdirectory `a` is spawned with destination
`d/a/B.php`, and a successful conversion writes there. -/
theorem c1_witness :
    ∃ t, t ∈ spawnedTasks stEx.events ∧ t.source = ["s", "a", "B.java"] ∧
      ["s"] <+: ["s", "a", "B.java"] ∧
      pathExtension ["s", "a", "B.java"] = some "java" ∧
      t.dest = ["d", "a", "B.php"] ∧
      ∀ ev, convert wTree ["s", "a", "B.java"] t.dest =
          (ev, Except.ok ()) →
        ∃ text, ev = [Event.readFile ["s", "a", "B.java"],
            Event.write t.dest text] ∧
          Event.write t.dest text ∈ (mainModel wTree ["s"] ["d"]).fst :=
  c1_tree_mapping wTree ["s"] ["d"] (fun _ => false) csEx stEx 2
    ["s", "a", "B.java"] rfl rfl rfl rfl (by decide) (by decide)

/-- C2: the walk's filter keeps an entry only if it is a directory or a file
whose extension equals "java" exactly; consequently every spawned task's
source is a java file, and every write event of a tree-mode run targets the
destination of such a task — a source file not matching the extension gets
no task and no write. -/
theorem c2_extension_filter (w : World) (source destination : Path)
    (ign : Path → Bool) (cs : List FsTree) (st : TreeState)
    (hd : w.destIsDir = true) (hf : w.sourceIsFile = false)
    (hs : w.sourceIsDir = true)
    (hwalk : w.walkResults = (walkRoot ign source cs).map Except.ok)
    (hrun : runEntries w source destination ⟨[], []⟩ w.walkResults =
      (st, none)) :
    (∀ (pk : Path) (k : EntryKind), includeEntry pk k = true ↔
      (k = .dir ∨ (k = .file ∧ pathExtension pk = some "java"))) ∧
    (∀ t ∈ spawnedTasks st.events, pathExtension t.source = some "java") ∧
    (∀ (pth : Path) (c : String),
      Event.write pth c ∈ (mainModel w source destination).fst →
      ∃ t ∈ spawnedTasks st.events, pth = t.dest ∧
        pathExtension t.source = some "java") := by
  refine ⟨?_, ?_, ?_⟩
  · intro pk k
    cases k <;> simp [includeEntry]
  · intro t ht
    exact (spawned_from_walk w source destination ign cs st hwalk hrun
      t ht).2.1
  · intro pth c hw
    rw [mainModel_tree hd hf hs hrun] at hw
    dsimp only at hw
    rw [ List.mem_append, List.mem_append] at hw
    rcases hw with (hw | hw) | hw
    · have := runEntries_loopEvents w source destination w.walkResults
        ⟨[], []⟩ st none hrun (by simp) _ hw
      simp [loopEvent] at this
    · rw [ List.mem_flatMap] at hw
      obtain ⟨pr, hpr, hx⟩ := hw
      rw [ List.mem_map] at hpr
      obtain ⟨t, ht, htr⟩ := hpr
      rw [← htr, taskRun_fst] at hx
      rcases convert_events_cases hx with hcase | ⟨cc, hcase⟩
      · exact Event.noConfusion hcase
      · have hpd : pth = t.dest := by
          injection hcase with hcase1 hcase2
        exact ⟨t, ht, hpd, (spawned_from_walk w source destination ign cs
          st hwalk hrun t ht).2.1⟩
    · unfold drainEvents at hw
      rw [ List.mem_filterMap] at hw
      obtain ⟨r, -, hr⟩ := hw
      rcases r with e | u <;> simp at hr

/-- C2 witness: the concrete tree containing `C.txt` (filtered out). -/
theorem c2_witness :
    (∀ (pk : Path) (k : EntryKind), includeEntry pk k = true ↔
      (k = .dir ∨ (k = .file ∧ pathExtension pk = some "java"))) ∧
    (∀ t ∈ spawnedTasks stEx.events, pathExtension t.source = some "java") ∧
    (∀ (pth : Path) (c : String),
      Event.write pth c ∈ (mainModel wTree ["s"] ["d"]).fst →
      ∃ t ∈ spawnedTasks stEx.events, pth = t.dest ∧
        pathExtension t.source = some "java") :=
  c2_extension_filter wTree ["s"] ["d"] (fun _ => false) csEx stEx
    rfl rfl rfl rfl (by decide)

/-- C3: over an error-free walk of the source tree, every strict ancestor
directory `q` of a spawned task's source file had its mirrored destination
directory created or found existing at a loop step strictly before the
task's spawn step — and hence before any time at which the task can write,
since a task writes only after its spawn step. -/
theorem c3_dirs_before_writes (w : World) (source destination : Path)
    (ign : Path → Bool) (cs : List FsTree) (st : TreeState)
    (hwalk : w.walkResults = (walkRoot ign source cs).map Except.ok)
    (hrun : runEntries w source destination ⟨[], []⟩ w.walkResults =
      (st, none))
    (writeTime : Nat → Nat) (hwt : ∀ k, k < writeTime k)
    (i : Nat) (t : ConversionTask)
    (hi : st.events[i]? = some (Event.spawn t))
    (q : Path) (hq1 : source <+: q) (hq2 : q <+: t.source)
    (hqe : q ≠ t.source) :
    ∃ j, j < i ∧ j < writeTime i ∧ ∃ ev, st.events[j]? = some ev ∧
      (ev = Event.createDir (destination ++ q.drop source.length) ∨
       ev = Event.dirFound (destination ++ q.drop source.length)) := by
  rw [hwalk] at hrun
  obtain ⟨hlen, hidx⟩ := runEntries_ok_init w source destination _ st hrun
  obtain ⟨hilt, -⟩ := List.getElem?_eq_some_iff.mp hi
  have hent : i < (walkRoot ign source cs).length := by omega
  rcases hW : (walkRoot ign source cs)[i] with ⟨enp, enk⟩
  have henq : (walkRoot ign source cs)[i]? = some ⟨enp, enk⟩ := by
    rw [ List.getElem?_eq_getElem hent, hW]
  obtain ⟨ev, hev, hm⟩ := hidx i ⟨enp, enk⟩ henq
  rw [hi] at hev
  have hevt : ev = Event.spawn t := (Option.some.inj hev).symm
  subst hevt
  cases enk with
  | dir =>
    unfold entryEvent at hm
    rcases hm with hm | hm <;> exact Event.noConfusion hm
  | file =>
    unfold entryEvent at hm
    dsimp only at hm
    have hts : t = ⟨enp,
        setExtPath (destination ++ enp.drop source.length) "php"⟩ := by
      injection hm
    subst hts
    dsimp only at hq2 hqe
    obtain ⟨m, hmlt, hmq⟩ :=
      walkRoot_anc ign source cs i ⟨enp, .file⟩ henq q hq1 hq2 hqe
    obtain ⟨ev2, hev2, hm2⟩ := hidx m ⟨q, .dir⟩ hmq
    unfold entryEvent at hm2
    dsimp only at hm2
    exact ⟨m, hmlt, Nat.lt_trans hmlt (hwt i), ev2, hev2, hm2⟩

/-- C3 witness: the directory `a`'s mirror `d/a` is handled at step 1,
before the spawn of `B.java` at step 2 and before its write time 3. -/
theorem c3_witness :
    ∃ j, j < 2 ∧ j < 3 ∧ ∃ ev, stEx.events[j]? = some ev ∧
      (ev = Event.createDir ["d", "a"] ∨ ev = Event.dirFound ["d", "a"]) :=
  c3_dirs_before_writes wTree ["s"] ["d"] (fun _ => false) csEx stEx
    rfl (by decide) (fun k => k + 1) (fun k => Nat.lt_succ_self k)
    2 ⟨["s", "a", "B.java"], ["d", "a", "B.php"]⟩ (by decide)
    ["s", "a"] (by decide) (by decide) (by decide)

/-- C4: a failing task's wrapped error is printed, every other spawned
task with a successful conversion still contributes all its events (its
read and its write) to the run's trace, and the run outcome stays `Ok`:
one task's failure cancels neither sibling tasks nor the run. -/
theorem c4_fault_isolation (w : World) (source destination : Path)
    (st : TreeState)
    (hd : w.destIsDir = true) (hf : w.sourceIsFile = false)
    (hs : w.sourceIsDir = true)
    (hrun : runEntries w source destination ⟨[], []⟩ w.walkResults =
      (st, none))
    (t1 t2 : ConversionTask)
    (h1 : t1 ∈ spawnedTasks st.events) (h2 : t2 ∈ spawnedTasks st.events)
    (e : String) (hfail : (convert w t1.source t1.dest).snd = .error e)
    (ev2 : List Event)
    (hok : convert w t2.source t2.dest = (ev2, Except.ok ())) :
    Event.printErr (pathDisplay t1.dest ++ ": " ++ e) ∈
      (mainModel w source destination).fst ∧
    (∀ x ∈ ev2, x ∈ (mainModel w source destination).fst) ∧
    (mainModel w source destination).snd = Except.ok () := by
  rw [mainModel_tree hd hf hs hrun]
  dsimp only
  have hsnd : (taskRun w t1).snd =
      Except.error (pathDisplay t1.dest ++ ": " ++ e) := by
    rcases hc : convert w t1.source t1.dest with ⟨evs, r⟩
    rw [hc] at hfail
    dsimp only at hfail
    subst hfail
    unfold taskRun
    rw [hc]
  have hf2 : (taskRun w t2).fst = ev2 :=
    (taskRun_fst w t2).trans (congrArg Prod.fst hok)
  refine ⟨?_, ?_, rfl⟩
  · rw [ List.mem_append]
    right
    unfold drainEvents
    rw [ List.mem_filterMap]
    refine ⟨(taskRun w t1).snd, ?_, ?_⟩
    · rw [ List.mem_map]
      exact ⟨taskRun w t1, List.mem_map_of_mem _ h1, rfl⟩
    · rw [hsnd]
  · intro x hx
    rw [ List.mem_append]
    left
    rw [ List.mem_append]
    right
    rw [ List.mem_flatMap]
    refine ⟨taskRun w t2, List.mem_map_of_mem _ h2, ?_⟩
    rw [hf2]
    exact hx

/-- C4 witness: reading `B.java` fails, its failure is printed, and
`A.java` is still read and written to `d/A.php`; the run outcome is `Ok`. -/
theorem c4_witness :
    Event.printErr "d/B.php: boom" ∈ (mainModel wTree2 ["s"] ["d"]).fst ∧
    (∀ x ∈ [Event.readFile ["s", "A.java"],
        Event.write ["d", "A.php"] "<?php X"],
      x ∈ (mainModel wTree2 ["s"] ["d"]).fst) ∧
    (mainModel wTree2 ["s"] ["d"]).snd = Except.ok () :=
  c4_fault_isolation wTree2 ["s"] ["d"] stEx2 rfl rfl rfl (by decide)
    ⟨["s", "B.java"], ["d", "B.php"]⟩ ⟨["s", "A.java"], ["d", "A.php"]⟩
    (by decide) (by decide) "boom" rfl
    [Event.readFile ["s", "A.java"], Event.write ["d", "A.php"] "<?php X"]
    rfl

end JavaToPhp
